import Mathlib

/-!
Verification of the fastdownloader repository (Go, two source files) against its
natural-language specification.  The Go functions are shallowly embedded as pure
Lean functions: uint64 arithmetic is modelled on Nat with explicit reduction
modulo 2 ^ 64 where the source can wrap, stateful loops become explicit
fuel-indexed state passing, the filesystem becomes an association list from
file names to byte lists, and external collaborators (the HTTP transport,
mime.ParseMediaType) become explicit parameters describing their observable
outcome.
-/

/-- Modulus of Go's uint64 arithmetic. -/
def u64Mod : ℕ := 2 ^ 64

/-- The batch size computed on construction in batchGenerator
(fastdownloader.go line 143): integer (floor) division of the content length
by the requested number of batches, exactly Go's uint64 division. -/
def batchSize (contentLength totalBatches : ℕ) : ℕ := contentLength / totalBatches

/-- One call of the closure returned by batchGenerator (fastdownloader.go lines
146-162), as a transition on the captured cursor.  Input: the captured
contentLength and batchSize and the current value of the mutable start cursor.
Output: the pair returned to the caller and the new cursor value.
Go source, line by line:
  if start >= contentLength { return 0, 0 }             -- exhaustion sentinel
  stop := start + batchSize                              -- uint64, may wrap
  start += batchSize
  if stop > contentLength { stop = contentLength }
  return start - batchSize, stop - 1                     -- uint64, may wrap
uint64 subtraction a - b is modelled as (a + (2^64 - b)) % 2^64. -/
def batchGeneratorStep (contentLength bSize start : ℕ) : (ℕ × ℕ) × ℕ :=
  if contentLength ≤ start then ((0, 0), start)
  else
    ((((start + bSize) % u64Mod + (u64Mod - bSize)) % u64Mod,
      ((if contentLength < (start + bSize) % u64Mod then contentLength
        else (start + bSize) % u64Mod) + (u64Mod - 1)) % u64Mod),
     (start + bSize) % u64Mod)

/-- Repeatedly call the generator while its internal cursor has not reached the
exhaustion state (start >= contentLength), collecting the emitted pairs and the
final cursor.  The fuel argument only bounds the number of calls: whenever the
cursor reaches contentLength within the fuel, the first component is exactly
the sequence of ranges emitted before the first no-more-ranges result. -/
def genRun (contentLength bSize : ℕ) : ℕ → ℕ → List (ℕ × ℕ) × ℕ
  | 0, start => ([], start)
  | fuel + 1, start =>
    if start < contentLength then
      ((batchGeneratorStep contentLength bSize start).1 ::
          (genRun contentLength bSize fuel (batchGeneratorStep contentLength bSize start).2).1,
        (genRun contentLength bSize fuel (batchGeneratorStep contentLength bSize start).2).2)
    else ([], start)

/-- The dispatch loop of parallelDownload (fastdownloader.go lines 257-283):
it calls the generator, breaks as soon as the returned pair is (0, 0), and
otherwise spawns a fetch task for the returned range.  The returned list holds
the ranges for which a task is spawned, in spawn order, so the chunk index of a
range is its position in this list (the maxFiles counter).  The fuel only
bounds the number of iterations of the model; the Go loop itself has no bound. -/
def dispatchRun (contentLength bSize : ℕ) : ℕ → ℕ → List (ℕ × ℕ)
  | 0, _ => []
  | fuel + 1, start =>
    if (batchGeneratorStep contentLength bSize start).1 = (0, 0) then []
    else
      (batchGeneratorStep contentLength bSize start).1 ::
        dispatchRun contentLength bSize fuel (batchGeneratorStep contentLength bSize start).2

/-- The ranges emitted by batchGenerator contentLength totalBatches before the
first exhaustion result, starting from cursor 0 as in the source; fuel
contentLength suffices whenever the batch size is at least 1. -/
def emittedRanges (contentLength totalBatches : ℕ) : List (ℕ × ℕ) :=
  (genRun contentLength (batchSize contentLength totalBatches) contentLength 0).1

/-- isPartition s cl rs states that the inclusive ranges rs, in order, tile the
byte interval from s (inclusive) to cl (exclusive): each range begins where the
previous stopped plus one, ranges are nonempty, and the last stops at cl - 1. -/
def isPartition : ℕ → ℕ → List (ℕ × ℕ) → Prop
  | s, cl, [] => s = cl
  | s, cl, r :: rest => r.1 = s ∧ s ≤ r.2 ∧ r.2 < cl ∧ isPartition (r.2 + 1) cl rest

/-- The coverage property claimed for the partitioner: the emitted ranges tile
the interval from 0 to cl exactly (first range starts at 0, ranges contiguous
and nonempty, final stop cl - 1), starts are strictly increasing, ranges are
pairwise non-overlapping, and every byte below cl is covered. -/
def CoversExactly (cl : ℕ) (rs : List (ℕ × ℕ)) : Prop :=
  isPartition 0 cl rs
  ∧ List.Pairwise (fun r r' : ℕ × ℕ => r.1 < r'.1 ∧ r.2 < r'.1) rs
  ∧ ∀ x, x < cl → ∃ r ∈ rs, r.1 ≤ x ∧ x ≤ r.2

/-- When the cursor is still below contentLength, the batch size is positive
and the uint64 addition start + batchSize cannot wrap, one generator call
behaves as exact arithmetic: it emits the range from start to
min contentLength (start + batchSize) - 1 inclusive and advances the cursor
by the batch size. -/
lemma batchGeneratorStep_eq (cl b s : ℕ) (hs : s < cl) (hb : 1 ≤ b)
    (hov : s + b < u64Mod) :
    batchGeneratorStep cl b s = ((s, min cl (s + b) - 1), s + b) := by
  have e0 : (s + b) % u64Mod = s + b := Nat.mod_eq_of_lt hov
  have e1 : ((s + b) % u64Mod + (u64Mod - b)) % u64Mod = s := by
    rw [e0]
    have h2 : s + b + (u64Mod - b) = s + u64Mod := by omega
    rw [h2, Nat.add_mod_right]
    exact Nat.mod_eq_of_lt (by omega)
  have e2 : (if cl < (s + b) % u64Mod then cl else (s + b) % u64Mod)
      = min cl (s + b) := by
    rw [e0]
    rcases Nat.lt_or_ge cl (s + b) with h | h
    · rw [if_pos h, Nat.min_eq_left (Nat.le_of_lt h)]
    · rw [if_neg (by omega), Nat.min_eq_right h]
  have hm : 1 ≤ min cl (s + b) ∧ min cl (s + b) < u64Mod := by
    constructor
    · rcases Nat.le_total cl (s + b) with h | h
      · rw [Nat.min_eq_left h]; omega
      · rw [Nat.min_eq_right h]; omega
    · rcases Nat.le_total cl (s + b) with h | h
      · rw [Nat.min_eq_left h]; omega
      · rw [Nat.min_eq_right h]; omega
  have e3 : (min cl (s + b) + (u64Mod - 1)) % u64Mod = min cl (s + b) - 1 := by
    have h2 : min cl (s + b) + (u64Mod - 1) = (min cl (s + b) - 1) + u64Mod := by omega
    rw [h2, Nat.add_mod_right]
    exact Nat.mod_eq_of_lt (by omega)
  unfold batchGeneratorStep
  rw [if_neg (by omega), e1, e2, e3, e0]

/-- Once the cursor has reached contentLength the run emits nothing more. -/
lemma genRun_stopped (cl b : ℕ) (fuel s : ℕ) (h : cl ≤ s) :
    genRun cl b fuel s = ([], s) := by
  cases fuel with
  | zero => rfl
  | succ n => simp [genRun, Nat.not_lt.mpr h]

/-- Main partition invariant of the generator run: starting anywhere below
contentLength with a positive batch size and enough fuel, and with no uint64
wraparound possible, the run reaches the exhausted cursor state and the emitted
ranges tile the remaining interval. -/
lemma genRun_isPartition (cl b : ℕ) (hb : 1 ≤ b) (hW : cl + b ≤ u64Mod) :
    ∀ fuel s, s < cl → cl ≤ s + fuel →
      cl ≤ (genRun cl b fuel s).2 ∧ isPartition s cl (genRun cl b fuel s).1 := by
  intro fuel
  induction fuel with
  | zero => intro s hs hf; omega
  | succ n ih =>
    intro s hs hf
    have hov : s + b < u64Mod := by omega
    have hstep := batchGeneratorStep_eq cl b s hs hb hov
    rcases Nat.lt_or_ge (s + b) cl with hsb | hsb
    · -- middle range: stop is s + b - 1, run continues from s + b
      have hmin : min cl (s + b) = s + b := Nat.min_eq_right (Nat.le_of_lt hsb)
      have hg : genRun cl b (n + 1) s
          = ((s, s + b - 1) :: (genRun cl b n (s + b)).1, (genRun cl b n (s + b)).2) := by
        simp [genRun, hs, hstep, hmin]
      obtain ⟨h2, hp⟩ := ih (s + b) hsb (by omega)
      rw [hg]
      refine ⟨h2, rfl, by omega, by omega, ?_⟩
      rw [show s + b - 1 + 1 = s + b from by omega]
      exact hp
    · -- final range: stop clamps to cl - 1 and the next cursor is exhausted
      have hmin : min cl (s + b) = cl := Nat.min_eq_left hsb
      have hg : genRun cl b (n + 1) s = ((s, cl - 1) :: [], s + b) := by
        simp [genRun, hs, hstep, hmin, genRun_stopped cl b n (s + b) hsb]
      rw [hg]
      exact ⟨hsb, rfl, by omega, by omega, by simp [isPartition]; omega⟩

/-- Every range of a tiling starts at or after the tiling's left end. -/
lemma isPartition_start_le (cl : ℕ) :
    ∀ (rs : List (ℕ × ℕ)) (s : ℕ), isPartition s cl rs → ∀ r ∈ rs, s ≤ r.1 := by
  intro rs
  induction rs with
  | nil => intro s _ r hr; cases hr
  | cons a rest ih =>
    intro s h r hr
    obtain ⟨h1, h2, h3, h4⟩ := h
    rcases List.mem_cons.mp hr with hr | hr
    · subst hr; omega
    · have := ih (a.2 + 1) h4 r hr
      omega

/-- A tiling has strictly increasing, pairwise disjoint ranges and covers
every byte of its interval. -/
lemma isPartition_pairwise_cover (cl : ℕ) :
    ∀ (rs : List (ℕ × ℕ)) (s : ℕ), isPartition s cl rs →
      List.Pairwise (fun r r' : ℕ × ℕ => r.1 < r'.1 ∧ r.2 < r'.1) rs
      ∧ ∀ x, s ≤ x → x < cl → ∃ r ∈ rs, r.1 ≤ x ∧ x ≤ r.2 := by
  intro rs
  induction rs with
  | nil =>
    intro s h
    have hsc : s = cl := h
    refine ⟨List.Pairwise.nil, ?_⟩
    intro x hx hx2
    omega
  | cons a rest ih =>
    intro s h
    obtain ⟨h1, h2, h3, h4⟩ := h
    obtain ⟨hpw, hcov⟩ := ih (a.2 + 1) h4
    constructor
    · refine List.Pairwise.cons ?_ hpw
      intro r hr
      have := isPartition_start_le cl rest (a.2 + 1) h4 r hr
      omega
    · intro x hx hx2
      rcases Nat.le_total x a.2 with hxa | hxa
      · exact ⟨a, List.mem_cons_self a rest, by omega, hxa⟩
      · rcases Nat.eq_or_lt_of_le hxa with hxa' | hxa'
        · exact ⟨a, List.mem_cons_self a rest, by omega, by omega⟩
        · obtain ⟨r, hr, hr2⟩ := hcov x (by omega) hx2
          exact ⟨r, List.mem_cons_of_mem a hr, hr2⟩

/-- With batch size 0 (requested fan-out above the content length), a generator
call from cursor 0 leaves the cursor at 0 and, through the uint64 underflow of
stop - 1, returns the pair (0, 2^64 - 1); the run therefore emits that pair
once per unit of fuel and never reaches the exhausted cursor state. -/
lemma genRun_stuck_zero (n : ℕ) :
    genRun 1 0 n 0 = (List.replicate n (0, u64Mod - 1), 0) := by
  induction n with
  | zero => rfl
  | succ m ih =>
    have hstep : batchGeneratorStep 1 0 0 = ((0, u64Mod - 1), 0) := by decide
    simp [genRun, hstep, ih, List.replicate_succ]

/-- With batch size 0, the dispatch loop of parallelDownload never sees its
break value (0, 0): within any fuel it spawns one task per iteration for the
underflowed range (0, 2^64 - 1) and never terminates on its own. -/
lemma dispatchRun_stuck_zero (fuel : ℕ) :
    dispatchRun 1 0 fuel 0 = List.replicate fuel (0, u64Mod - 1) := by
  induction fuel with
  | zero => rfl
  | succ m ih =>
    have hstep : batchGeneratorStep 1 0 0 = ((0, u64Mod - 1), 0) := by decide
    have hne : u64Mod - 1 ≠ 0 := by decide
    simp [dispatchRun, hstep, hne, ih, List.replicate_succ]

/-- C1 (amended): for every contentLength at least 1 and every fanOut with
1 <= fanOut <= contentLength (so the batch size floor(contentLength / fanOut)
is at least 1), and contentLength at most 2^63 (so the 64-bit cursor
arithmetic cannot wrap), the sequence of ranges emitted by the partitioner
before the first no-more-ranges result covers the bytes from 0 up to
contentLength exactly once: the first range starts at 0, starts are strictly
increasing, ranges are contiguous and non-overlapping, and the final stop is
contentLength - 1. -/
theorem batchGenerator_partitions (contentLength fanOut : ℕ)
    (h1 : 1 ≤ contentLength) (h2 : 1 ≤ fanOut) (h3 : fanOut ≤ contentLength)
    (h4 : contentLength ≤ 2 ^ 63) :
    ∃ n, contentLength ≤ (genRun contentLength (batchSize contentLength fanOut) n 0).2
      ∧ CoversExactly contentLength
          (genRun contentLength (batchSize contentLength fanOut) n 0).1 := by
  have hb : 1 ≤ batchSize contentLength fanOut :=
    (Nat.one_le_div_iff (by omega)).mpr h3
  have hble : batchSize contentLength fanOut ≤ contentLength := Nat.div_le_self _ _
  have hW : contentLength + batchSize contentLength fanOut ≤ u64Mod := by
    have h63 : (2 : ℕ) ^ 63 + 2 ^ 63 = 2 ^ 64 := by norm_num
    have hu : u64Mod = 2 ^ 64 := rfl
    omega
  refine ⟨contentLength, ?_⟩
  obtain ⟨hend, hpart⟩ :=
    genRun_isPartition contentLength (batchSize contentLength fanOut) hb hW
      contentLength 0 (by omega) (by omega)
  obtain ⟨hpw, hcov⟩ := isPartition_pairwise_cover contentLength _ 0 hpart
  exact ⟨hend, hpart, hpw, fun x hx => hcov x (Nat.zero_le x) hx⟩

/-- Witness for C1 at contentLength 11, fanOut 3. -/
theorem batchGenerator_partitions_witness :
    ∃ n, 11 ≤ (genRun 11 (batchSize 11 3) n 0).2
      ∧ CoversExactly 11 (genRun 11 (batchSize 11 3) n 0).1 :=
  batchGenerator_partitions 11 3 (by norm_num) (by norm_num) (by norm_num)
    (by norm_num)

/-- C1 fails as stated for all fanOut >= 1: at contentLength 1, fanOut 2 the
batch size truncates to 0, the cursor never advances, so no finite number of
generator calls reaches the no-more-ranges state, and no emitted prefix can
cover the content. -/
theorem batchGenerator_partitions_counterexample :
    ¬ ∃ n, 1 ≤ (genRun 1 (batchSize 1 2) n 0).2
        ∧ CoversExactly 1 (genRun 1 (batchSize 1 2) n 0).1 := by
  rintro ⟨n, hn, -⟩
  have h0 : (genRun 1 (batchSize 1 2) n 0).2 = 0 := by
    rw [show batchSize 1 2 = 0 from rfl, genRun_stuck_zero n]
  omega

/-- C2 (amended): the partitioner advances its cursor by
batchSize = floor(contentLength / fanOut) and clamps the final range to end at
contentLength - 1, so a division remainder produces one extra, shorter final
range rather than extending the previous one.  Concretely: partition(11, 3)
emits (0,2), (3,5), (6,8), (9,10) with sizes 3, 3, 3, 2 summing to 11;
partition(11, 2) emits (0,4), (5,9), (10,10) with sizes 5, 5, 1 summing to 11;
partition(5, 1) emits the single range (0,4) covering all 5 bytes. -/
theorem partition_concrete_cases :
    batchSize 11 3 = 3 ∧ emittedRanges 11 3 = [(0, 2), (3, 5), (6, 8), (9, 10)]
    ∧ (emittedRanges 11 3).map (fun r => r.2 + 1 - r.1) = [3, 3, 3, 2]
    ∧ batchSize 11 2 = 5 ∧ emittedRanges 11 2 = [(0, 4), (5, 9), (10, 10)]
    ∧ ((emittedRanges 11 2).map (fun r => r.2 + 1 - r.1)).sum = 11
    ∧ batchSize 5 1 = 5 ∧ emittedRanges 5 1 = [(0, 4)] := by decide

/-- C2 fails as stated on the partition(11, 2) case: the code emits the three
ranges (0,4), (5,9), (10,10) of sizes 5, 5, 1, not two ranges of sizes
5 and 6. -/
theorem partition_11_2_counterexample :
    (emittedRanges 11 2).map (fun r => r.2 + 1 - r.1) = [5, 5, 1]
    ∧ (emittedRanges 11 2).map (fun r => r.2 + 1 - r.1) ≠ [5, 6] := by decide

/-- C3: the code does not cap the fan-out.  At contentLength 1 and
requestedFanOut 2 the batch size truncates to 0, every generator call returns
the underflowed pair (0, 2^64 - 1) without advancing the cursor, the
exhaustion state is never reached, and the dispatch loop of parallelDownload
never sees its (0, 0) break value, looping forever. -/
theorem fanout_exceeds_length_bug :
    batchSize 1 2 = 0
    ∧ (∀ n, genRun 1 (batchSize 1 2) n 0 = (List.replicate n (0, u64Mod - 1), 0))
    ∧ (∀ fuel, dispatchRun 1 (batchSize 1 2) fuel 0
        = List.replicate fuel (0, u64Mod - 1)) := by
  refine ⟨rfl, ?_, ?_⟩
  · intro n
    rw [show batchSize 1 2 = 0 from rfl]
    exact genRun_stuck_zero n
  · intro fuel
    rw [show batchSize 1 2 = 0 from rfl]
    exact dispatchRun_stuck_zero fuel

/-- C4: at contentLength 1 (fanOut 1) the partition consists of the single
legitimate one-byte range (0, 0), after which the generator is exhausted; but
the dispatch loop of parallelDownload interprets that same pair (0, 0) as the
exhaustion sentinel and spawns no fetch task at all. -/
theorem sentinel_collision_bug :
    emittedRanges 1 1 = [(0, 0)]
    ∧ 1 ≤ (genRun 1 (batchSize 1 1) 1 0).2
    ∧ ∀ fuel, dispatchRun 1 (batchSize 1 1) fuel 0 = [] := by
  refine ⟨by decide, by decide, ?_⟩
  intro fuel
  cases fuel with
  | zero => rfl
  | succ n =>
    have hstep : (batchGeneratorStep 1 (batchSize 1 1) 0).1 = (0, 0) := by decide
    simp [dispatchRun, hstep]

/-- Numeric value of a decimal digit string, most significant digit first. -/
def natOfDigits (cs : List Char) : ℕ :=
  cs.foldl (fun acc c => acc * 10 + (c.toNat - Char.toNat '0')) 0

/-- strconv.ParseUint(s, 10, 64) as used at fastdownloader.go line 68: succeeds
exactly on a nonempty all-digit string whose value fits in a uint64 (no sign,
no separators for a fixed base of 10); on success it yields the value. -/
def parseUint64 (s : String) : Option ℕ :=
  if s.data ≠ [] ∧ s.data.all Char.isDigit ∧ natOfDigits s.data < u64Mod
  then some (natOfDigits s.data) else none

/-- Observable outcome of the external collaborator mime.ParseMediaType: either
an error, or a media type with its parameter map. -/
inductive ParseMediaTypeResult where
  | fail
  | ok (params : List (String × String))

/-- Go map access params[key] on the parameter map: the value when the key is
present, the zero string otherwise. -/
def paramGet : List (String × String) → String → String
  | [], _ => ""
  | (k, v) :: rest, key => if k = key then v else paramGet rest key

/-- The two header values read by extractDownloadDetailsFromHeaders, as
returned by header.Get: the empty string stands for an absent header. -/
structure HttpHeader where
  contentLength : String
  contentDisposition : String

/-- extractDownloadDetailsFromHeaders (fastdownloader.go lines 63-86),
parameterised by the outcome of the external mime.ParseMediaType:
parse the Content-Length value with ParseUint and return its error if any;
if Content-Disposition is empty, succeed with an empty filename; otherwise
parse it as a media type, returning that error if any, else succeed with the
filename parameter.  The error value is surfaced to the caller (Except). -/
def extractDownloadDetailsFromHeaders (h : HttpHeader)
    (parseMediaType : String → ParseMediaTypeResult) :
    Except Unit (String × ℕ) :=
  match parseUint64 h.contentLength with
  | none => Except.error ()
  | some fileLength =>
    if h.contentDisposition = "" then Except.ok ("", fileLength)
    else
      match parseMediaType h.contentDisposition with
      | ParseMediaTypeResult.fail => Except.error ()
      | ParseMediaTypeResult.ok params =>
          Except.ok (paramGet params "filename", fileLength)

/-- C6 (amended): header extraction fails if and only if the Content-Length
value is absent or not parsable as an unsigned 64-bit decimal integer, OR a
Content-Disposition header is present but is itself rejected by the media-type
parse; an absent Content-Disposition never causes failure, and when it is
present and parsable only its filename parameter is extracted. -/
theorem extract_headers_failure_iff (h : HttpHeader)
    (parseMediaType : String → ParseMediaTypeResult) :
    (extractDownloadDetailsFromHeaders h parseMediaType = Except.error () ↔
      (parseUint64 h.contentLength = none
        ∨ (h.contentDisposition ≠ ""
            ∧ parseMediaType h.contentDisposition = ParseMediaTypeResult.fail)))
    ∧ ∀ len params, parseUint64 h.contentLength = some len →
        h.contentDisposition ≠ "" →
        parseMediaType h.contentDisposition = ParseMediaTypeResult.ok params →
        extractDownloadDetailsFromHeaders h parseMediaType
          = Except.ok (paramGet params "filename", len) := by
  constructor
  · unfold extractDownloadDetailsFromHeaders
    rcases hcl : parseUint64 h.contentLength with _ | len
    · simp
    · by_cases hcd : h.contentDisposition = ""
      · simp [hcd]
      · rcases hmp : parseMediaType h.contentDisposition with _ | params
        · simp [hcd, hmp]
        · simp [hcd, hmp]
  · intro len params hlen hcd hmp
    simp [extractDownloadDetailsFromHeaders, hlen, hcd, hmp]

/-- Witness for C6: Content-Length "7" with a parsable Content-Disposition
carrying filename parameter "f" yields the filename and length 7. -/
theorem extract_headers_failure_iff_witness :
    extractDownloadDetailsFromHeaders ⟨"7", "attachment"⟩
        (fun _ => ParseMediaTypeResult.ok [("filename", "f")])
      = Except.ok (paramGet [("filename", "f")] "filename", 7) :=
  (extract_headers_failure_iff ⟨"7", "attachment"⟩
      (fun _ => ParseMediaTypeResult.ok [("filename", "f")])).2
    7 [("filename", "f")] (by decide) (by decide) rfl

/-- C6 is false as stated: with the parsable Content-Length "10" and the
present but malformed Content-Disposition value ";" (a value Go's
mime.ParseMediaType rejects with an error), the extraction fails even though
the Content-Length header is present and parsable, so the contents of a
present Content-Disposition header can cause failure. -/
theorem extract_headers_counterexample :
    extractDownloadDetailsFromHeaders ⟨"10", ";"⟩
        (fun _ => ParseMediaTypeResult.fail)
      = Except.error ()
    ∧ parseUint64 "10" = some 10 := by
  exact ⟨rfl, by decide⟩

/-- The last segment computation inside Go's path.Base: strip trailing
slashes, then keep everything after the last remaining slash. -/
def baseCandidate (p : List Char) : List Char :=
  ((p.reverse.dropWhile (fun c => c == '/')).takeWhile (fun c => c != '/')).reverse

/-- Go's path.Base: "." for the empty path, "/" when the path consists only of
slashes, otherwise the last path element. -/
def pathBase (p : List Char) : List Char :=
  if p = [] then ['.']
  else if baseCandidate p = [] then ['/']
  else baseCandidate p

/-- path.Base on Go strings. -/
def pathBaseStr (s : String) : String := String.mk (pathBase s.data)

/-- parseURLAndCaptureFilename (fastdownloader.go lines 54-61) on a URL that
parses successfully: path.Base of the URL's path component.  The model takes
the path component itself as input; url.Parse is an external collaborator
whose only use here is extracting that component. -/
def parseURLAndCaptureFilename (urlPath : String) : String := pathBaseStr urlPath

/-- Output filename as resolved by serialDownload (fastdownloader.go lines
165-194): the fallback is path.Base of the URL path, replaced by the literal
"index.html" if empty; the header-supplied filename wins when nonempty. -/
def serialResolvedName (headerFileName urlPath : String) : String :=
  if headerFileName = ""
  then (if parseURLAndCaptureFilename urlPath = "" then "index.html"
        else parseURLAndCaptureFilename urlPath)
  else headerFileName

/-- Output filename as resolved by parallelDownload (fastdownloader.go lines
223-245): the header-supplied filename when nonempty, else path.Base of the
URL path, with no further default. -/
def parallelResolvedName (headerFileName urlPath : String) : String :=
  if headerFileName = "" then parseURLAndCaptureFilename urlPath
  else headerFileName

/-- The resolution precedence exactly as the spec (section 6) words it, for
comparison with the code: the server-supplied Content-Disposition filename if
present, else the final path segment of the URL, else a literal default name
(the code's literal is "index.html") when the URL has no path segment. -/
def specResolvedFilename (headerFileName urlPath : String) : String :=
  if headerFileName = "" then
    (if baseCandidate urlPath.data = [] then "index.html"
     else String.mk (baseCandidate urlPath.data))
  else headerFileName

/-- path.Base never returns the empty string. -/
lemma pathBase_ne_nil (p : List Char) : pathBase p ≠ [] := by
  unfold pathBase
  split_ifs with h1 h2
  · simp
  · simp
  · exact h2

/-- path.Base on Go strings never returns the empty string. -/
lemma pathBaseStr_ne_empty (s : String) : pathBaseStr s ≠ "" := by
  intro h
  exact pathBase_ne_nil s.data (congrArg String.data h)

/-- C8 (amended): in both the parallel path and the sequential fallback the
output filename is the server-supplied Content-Disposition filename when
nonempty, else path.Base of the URL's path component; path.Base never returns
the empty string (an empty path gives "." and an all-slash path gives "/"), so
the sequential path's literal "index.html" default is unreachable and the two
paths always resolve the same name. -/
theorem resolvedFilename_precedence (headerFileName urlPath : String) :
    serialResolvedName headerFileName urlPath
        = parallelResolvedName headerFileName urlPath
    ∧ (headerFileName ≠ "" →
        parallelResolvedName headerFileName urlPath = headerFileName)
    ∧ (headerFileName = "" →
        parallelResolvedName headerFileName urlPath
          = parseURLAndCaptureFilename urlPath) := by
  have hne : parseURLAndCaptureFilename urlPath ≠ "" := pathBaseStr_ne_empty urlPath
  unfold serialResolvedName parallelResolvedName
  by_cases h : headerFileName = ""
  · refine ⟨?_, ?_, ?_⟩
    · rw [if_pos h, if_pos h, if_neg hne]
    · intro hc; exact absurd h hc
    · intro _; rw [if_pos h]
  · refine ⟨?_, ?_, ?_⟩
    · rw [if_neg h, if_neg h]
    · intro _; rw [if_neg h]
    · intro hc; exact absurd hc h

/-- Witness for C8: no header filename, URL path "a/b". -/
theorem resolvedFilename_precedence_witness :
    parallelResolvedName "" "a/b" = parseURLAndCaptureFilename "a/b"
    ∧ serialResolvedName "" "a/b" = parallelResolvedName "" "a/b" :=
  ⟨(resolvedFilename_precedence "" "a/b").2.2 rfl,
   (resolvedFilename_precedence "" "a/b").1⟩

/-- C8 fails as stated: with no Content-Disposition filename and a URL whose
path component is empty, both download paths resolve the output name to ".",
the value path.Base returns for an empty path, not to a literal default name
as the spec prescribes ("index.html" in the code); the default branch of
serialDownload is unreachable because path.Base never returns "". -/
theorem resolvedFilename_counterexample :
    parallelResolvedName "" "" = "."
    ∧ serialResolvedName "" "" = "."
    ∧ specResolvedFilename "" "" = "index.html"
    ∧ ("." : String) ≠ "index.html" := by
  refine ⟨rfl, rfl, rfl, by decide⟩

/-- Observable outcome of the ranged GET in downloadRangeBytes: the request
construction or the round trip fails, or a response with some status code and
body arrives. -/
inductive RangeResponse where
  | requestError
  | transportError
  | response (status : ℕ) (body : List ℕ)

/-- Observable outcome of the chunk-file I/O in dataWriter: creating the file
and copying the body either succeed or fail. -/
inductive WriteOutcome where
  | ok
  | createError
  | copyError

/-- How a piece of Go code in this program finishes: it returns successfully,
it returns a non-nil error value to its caller, or it panics, which aborts
the process when it happens inside a fetch goroutine. -/
inductive GoOutcome where
  | success
  | errValue
  | panicked
deriving DecidableEq

/-- dataWriter (fastdownloader.go lines 205-221): os.Create failure and
io.Copy failure both panic; there is no error return. -/
def dataWriter (w : WriteOutcome) : GoOutcome :=
  match w with
  | WriteOutcome.ok => GoOutcome.success
  | WriteOutcome.createError => GoOutcome.panicked
  | WriteOutcome.copyError => GoOutcome.panicked

/-- downloadRangeBytes (fastdownloader.go lines 28-52): request-construction
and transport errors are returned as error values; any response is handed to
dataWriter with the status code never inspected, and nil is returned. -/
def downloadRangeBytes (r : RangeResponse) (w : WriteOutcome) : GoOutcome :=
  match r with
  | RangeResponse.requestError => GoOutcome.errValue
  | RangeResponse.transportError => GoOutcome.errValue
  | RangeResponse.response _ _ => dataWriter w

/-- The fetch goroutine body spawned by parallelDownload (fastdownloader.go
lines 266-280): a non-nil error from downloadRangeBytes is turned into a
panic; nothing is ever sent back to the dispatching function. -/
def fetchTask (r : RangeResponse) (w : WriteOutcome) : GoOutcome :=
  match downloadRangeBytes r w with
  | GoOutcome.errValue => GoOutcome.panicked
  | o => o

/-- C5: the code does not surface fetch-task failures as reported error
values.  A transport error and a chunk-file create failure both end in a
process panic, a response with a non-success status (500) is treated as
success and its body is saved, and no combination of fetch outcome and write
outcome ever lets the task finish with an error value the orchestrator could
collect. -/
theorem fetch_failure_not_reported_bug :
    fetchTask RangeResponse.transportError WriteOutcome.ok = GoOutcome.panicked
    ∧ fetchTask (RangeResponse.response 500 []) WriteOutcome.ok = GoOutcome.success
    ∧ fetchTask (RangeResponse.response 200 []) WriteOutcome.createError
        = GoOutcome.panicked
    ∧ ∀ r w, fetchTask r w ≠ GoOutcome.errValue := by
  refine ⟨rfl, rfl, rfl, ?_⟩
  intro r w
  cases r <;> cases w <;> simp [fetchTask, downloadRangeBytes, dataWriter]

/-- The shared progress counter and each goroutine's local view of it.  The
Go statement p.readBytes += uint64(len(data)) at fastdownloader.go line 126 is
an unsynchronized read-modify-write of the shared field: its semantics under
concurrency is a load of readBytes followed by a store of the loaded value
plus the write's byte count, with no lock held between the two. -/
structure ProgressState where
  readBytes : ℕ
  localRead : ℕ → ℕ

/-- The two primitive shared-memory actions of one progressWriter.Write call
performed by fetch task t: load the shared counter, then store the loaded
value plus the task's byte count. -/
inductive IncAction where
  | load (t : ℕ)
  | store (t : ℕ)

/-- Which task performs an action. -/
def IncAction.task : IncAction → ℕ
  | IncAction.load t => t
  | IncAction.store t => t

/-- Effect of one primitive action on the shared state, where lens t is the
byte count len(data) of task t's Write call (uint64 addition). -/
def incStep (lens : ℕ → ℕ) (s : ProgressState) : IncAction → ProgressState
  | IncAction.load t =>
      { s with localRead := fun u => if u = t then s.readBytes else s.localRead u }
  | IncAction.store t =>
      { s with readBytes := (s.localRead t + lens t) % u64Mod }

/-- Run a whole interleaving of primitive actions. -/
def runIncs (lens : ℕ → ℕ) (init : ProgressState) (acts : List IncAction) :
    ProgressState :=
  acts.foldl (incStep lens) init

/-- The action sequence of one progressWriter.Write call by task t. -/
def writeProgram (t : ℕ) : List IncAction := [IncAction.load t, IncAction.store t]

/-- C9: the increment of the shared bytesRead counter is not synchronized.
The interleaving load 0, load 1, store 0, store 1 is a legal concurrent
execution of two Write calls of one byte each (per task, the actions are
exactly its Write program in order), yet the final counter is 1, not the sum
2 of the reported byte counts: an update is lost, which a lock or an atomic
increment would make impossible. -/
theorem progress_counter_unsynchronized_bug :
    (runIncs (fun _ => 1) ⟨0, fun _ => 0⟩
        [IncAction.load 0, IncAction.load 1,
         IncAction.store 0, IncAction.store 1]).readBytes = 1
    ∧ ([IncAction.load 0, IncAction.load 1,
        IncAction.store 0, IncAction.store 1].filter
          (fun a => IncAction.task a = 0)) = writeProgram 0
    ∧ ([IncAction.load 0, IncAction.load 1,
        IncAction.store 0, IncAction.store 1].filter
          (fun a => IncAction.task a = 1)) = writeProgram 1
    ∧ (1 : ℕ) ≠ 1 + 1 := by
  refine ⟨?_, ?_, ?_, by decide⟩
  · simp [runIncs, incStep, IncAction.task, u64Mod]
  · simp [List.filter, IncAction.task, writeProgram]
  · simp [List.filter, IncAction.task, writeProgram]

/-- The working directory as an association list from file names to byte
contents (first binding wins, as in a real directory no name is bound twice
by the operations below). -/
abbrev FS := List (String × List ℕ)

/-- Look a file up. -/
def fsGet : FS → String → Option (List ℕ)
  | [], _ => none
  | (k, v) :: rest, key => if k = key then some v else fsGet rest key

/-- Create or overwrite a file. -/
def fsSet : FS → String → List ℕ → FS
  | [], key, v => [(key, v)]
  | (k, w) :: rest, key, v =>
      if k = key then (key, v) :: rest else (k, w) :: fsSet rest key v

/-- Delete a file. -/
def fsRemove : FS → String → FS
  | [], _ => []
  | (k, w) :: rest, key =>
      if k = key then fsRemove rest key else (k, w) :: fsRemove rest key

/-- os.Rename oldName newName: move the file when it exists, silently do
nothing otherwise (the code discards the error of os.Rename). -/
def fsRename (fs : FS) (oldName newName : String) : FS :=
  match fsGet fs oldName with
  | none => fs
  | some v => fsSet (fsRemove fs oldName) newName v

lemma fsGet_fsSet_same (fs : FS) (k : String) (v : List ℕ) :
    fsGet (fsSet fs k v) k = some v := by
  induction fs with
  | nil => simp [fsSet, fsGet]
  | cons hd rest ih =>
    by_cases h : hd.1 = k
    · simp [fsSet, fsGet, h]
    · simp [fsSet, fsGet, h, ih]

lemma fsGet_fsSet_ne (fs : FS) (k key : String) (v : List ℕ) (h : k ≠ key) :
    fsGet (fsSet fs k v) key = fsGet fs key := by
  induction fs with
  | nil => simp [fsSet, fsGet, h]
  | cons hd rest ih =>
    by_cases h2 : hd.1 = k
    · simp [fsSet, fsGet, h2, h]
    · by_cases h3 : hd.1 = key
      · simp [fsSet, fsGet, h2, h3, Ne.symm h]
      · simp [fsSet, fsGet, h2, h3, ih]

lemma fsGet_fsRemove_same (fs : FS) (k : String) :
    fsGet (fsRemove fs k) k = none := by
  induction fs with
  | nil => simp [fsRemove, fsGet]
  | cons hd rest ih =>
    by_cases h : hd.1 = k
    · simp [fsRemove, fsGet, h, ih]
    · simp [fsRemove, fsGet, h, ih]

lemma fsGet_fsRemove_ne (fs : FS) (k key : String) (h : k ≠ key) :
    fsGet (fsRemove fs k) key = fsGet fs key := by
  induction fs with
  | nil => simp [fsRemove, fsGet]
  | cons hd rest ih =>
    by_cases h2 : hd.1 = k
    · have h3 : hd.1 ≠ key := by rw [h2]; exact h
      simp [fsRemove, fsGet, h2, h3, h, ih]
    · by_cases h3 : hd.1 = key
      · simp [fsRemove, fsGet, h2, h3, Ne.symm h, ih]
      · simp [fsRemove, fsGet, h2, h3, ih]

/-- Chunk-file name fmt.Sprintf of the base name, a dot and the index. -/
def chunkName (name : String) (i : ℕ) : String :=
  name ++ "." ++ Nat.repr i

/-- Concatenation of the chunk contents c i, c (i+1), ..., over count
indices. -/
def concatFrom (c : ℕ → List ℕ) (i : ℕ) : ℕ → List ℕ
  | 0 => []
  | count + 1 => c i ++ concatFrom c (i + 1) count

/-- Index-ordered concatenation of the contents of chunks 0 .. n-1. -/
def concatChunks (c : ℕ → List ℕ) (n : ℕ) : List ℕ := concatFrom c 0 n

/-- The merge loop of parallelDownload (fastdownloader.go lines 293-304),
iterating the chunk index from i over count further indices: open the current
chunk (a missing file panics, modelled as none), append its content to the
base chunk file name.0 (the file handle opened with O_APPEND before the loop;
modelled by rewriting the base entry), then delete the current chunk, and
continue with the next index. -/
def mergeLoop (name : String) : ℕ → ℕ → FS → Option FS
  | _, 0, fs => some fs
  | i, count + 1, fs =>
    match fsGet fs (chunkName name i) with
    | none => none
    | some data =>
      match fsGet fs (chunkName name 0) with
      | none => none
      | some base =>
        mergeLoop name (i + 1) count
          (fsRemove (fsSet fs (chunkName name 0) (base ++ data))
            (chunkName name i))

/-- Reassembly in parallelDownload (fastdownloader.go lines 287-307): open
the base chunk name.0 for appending (missing file panics, modelled as none),
run the merge loop over indices 1 .. n-1, then rename name.0 to the final
name. -/
def reassemble (name : String) (n : ℕ) (fs : FS) : Option FS :=
  match fsGet fs (chunkName name 0) with
  | none => none
  | some _ =>
    match mergeLoop name 1 (n - 1) fs with
    | none => none
    | some fs2 => some (fsRename fs2 (chunkName name 0) name)

/-- Invariant of the merge loop: starting at index i >= 1 with count chunks
still to merge, all of them present, the loop succeeds; afterwards the base
chunk holds its old content followed by those chunks' contents in index
order, the merged chunks are gone, and every other file is untouched. -/
lemma mergeLoop_spec (name : String) (c : ℕ → List ℕ) :
    ∀ (count i : ℕ) (fs : FS) (base : List ℕ),
      1 ≤ i →
      (∀ p q, (p = 0 ∨ (i ≤ p ∧ p < i + count)) →
        (q = 0 ∨ (i ≤ q ∧ q < i + count)) →
        chunkName name p = chunkName name q → p = q) →
      fsGet fs (chunkName name 0) = some base →
      (∀ j, i ≤ j → j < i + count → fsGet fs (chunkName name j) = some (c j)) →
      ∃ fs', mergeLoop name i count fs = some fs'
        ∧ fsGet fs' (chunkName name 0) = some (base ++ concatFrom c i count)
        ∧ (∀ j, i ≤ j → j < i + count → fsGet fs' (chunkName name j) = none)
        ∧ (∀ key, key ≠ chunkName name 0 →
            (∀ j, i ≤ j → j < i + count → key ≠ chunkName name j) →
            fsGet fs' key = fsGet fs key) := by
  intro count
  induction count with
  | zero =>
    intro i fs base hi hd hbase hch
    refine ⟨fs, rfl, ?_, ?_, ?_⟩
    · simpa [concatFrom] using hbase
    · intro j h1 h2; omega
    · intro key _ _; rfl
  | succ m ih =>
    intro i fs base hi hd hbase hch
    have hci : fsGet fs (chunkName name i) = some (c i) :=
      hch i (le_refl i) (by omega)
    have hne0 : chunkName name i ≠ chunkName name 0 := by
      intro h
      have := hd i 0 (Or.inr ⟨le_refl i, by omega⟩) (Or.inl rfl) h
      omega
    have hg : mergeLoop name i (m + 1) fs
        = mergeLoop name (i + 1) m
            (fsRemove (fsSet fs (chunkName name 0) (base ++ c i))
              (chunkName name i)) := by
      simp [mergeLoop, hci, hbase]
    set fs1 := fsRemove (fsSet fs (chunkName name 0) (base ++ c i))
      (chunkName name i) with hfs1
    have hbase1 : fsGet fs1 (chunkName name 0) = some (base ++ c i) := by
      rw [hfs1, fsGet_fsRemove_ne _ _ _ hne0, fsGet_fsSet_same]
    have hch1 : ∀ j, i + 1 ≤ j → j < i + 1 + m →
        fsGet fs1 (chunkName name j) = some (c j) := by
      intro j h1 h2
      have hji : chunkName name i ≠ chunkName name j := by
        intro h
        have := hd i j (Or.inr ⟨le_refl i, by omega⟩) (Or.inr ⟨by omega, by omega⟩) h
        omega
      have hj0 : chunkName name 0 ≠ chunkName name j := by
        intro h
        have := hd 0 j (Or.inl rfl) (Or.inr ⟨by omega, by omega⟩) h
        omega
      rw [hfs1, fsGet_fsRemove_ne _ _ _ hji, fsGet_fsSet_ne _ _ _ _ hj0]
      exact hch j (by omega) (by omega)
    have hd1 : ∀ p q, (p = 0 ∨ (i + 1 ≤ p ∧ p < i + 1 + m)) →
        (q = 0 ∨ (i + 1 ≤ q ∧ q < i + 1 + m)) →
        chunkName name p = chunkName name q → p = q := by
      intro p q hp hq h
      refine hd p q ?_ ?_ h
      · rcases hp with hp | hp
        · exact Or.inl hp
        · exact Or.inr ⟨by omega, by omega⟩
      · rcases hq with hq | hq
        · exact Or.inl hq
        · exact Or.inr ⟨by omega, by omega⟩
    obtain ⟨fs', hrun, hbase', hgone', hpres'⟩ :=
      ih (i + 1) fs1 (base ++ c i) (by omega) hd1 hbase1 hch1
    refine ⟨fs', by rw [hg]; exact hrun, ?_, ?_, ?_⟩
    · rw [hbase']
      simp [concatFrom, List.append_assoc]
    · intro j h1 h2
      rcases Nat.eq_or_lt_of_le h1 with h3 | h3
      · have hj : chunkName name j = chunkName name i := by rw [← h3]
        rw [hj]
        have hpi : ∀ j2, i + 1 ≤ j2 → j2 < i + 1 + m →
            chunkName name i ≠ chunkName name j2 := by
          intro j2 ha hb hcc
          have := hd i j2 (Or.inr ⟨le_refl i, by omega⟩)
            (Or.inr ⟨by omega, by omega⟩) hcc
          omega
        rw [hpres' (chunkName name i) hne0 hpi, hfs1, fsGet_fsRemove_same]
      · exact hgone' j (by omega) (by omega)
    · intro key hk0 hkj
      have hkj1 : ∀ j, i + 1 ≤ j → j < i + 1 + m → key ≠ chunkName name j := by
        intro j h1 h2
        exact hkj j (by omega) (by omega)
      have hki : key ≠ chunkName name i := hkj i (le_refl i) (by omega)
      rw [hpres' key hk0 hkj1, hfs1,
        fsGet_fsRemove_ne _ _ _ (fun h => hki h.symm),
        fsGet_fsSet_ne _ _ _ _ (fun h => hk0 h.symm)]

/-- concatChunks over n >= 1 chunks is chunk 0 followed by the rest. -/
lemma concatChunks_eq (c : ℕ → List ℕ) (n : ℕ) (hn : 1 ≤ n) :
    concatChunks c n = c 0 ++ concatFrom c 1 (n - 1) := by
  obtain ⟨m, rfl⟩ : ∃ m, n = m + 1 := ⟨n - 1, by omega⟩
  rfl

/-- C7: given n >= 1 chunk files name.0 .. name.(n-1) with contents
c 0 .. c (n-1), reassembly succeeds, appending chunks 1 .. n-1 in index order
onto chunk 0's file and deleting each right after it is appended, and finally
renames name.0 to name: in the resulting directory the final file name holds
the index-ordered concatenation of all chunk contents and no chunk file
remains.  The two side conditions state true facts about the names involved:
the chunk names of distinct indices differ and no chunk name equals the final
name (both hold for actual strings, as the witness checks). -/
theorem reassemble_correct (name : String) (n : ℕ) (c : ℕ → List ℕ) (fs : FS)
    (hn : 1 ≤ n)
    (hdist : ∀ p, p < n → ∀ q, q < n →
      chunkName name p = chunkName name q → p = q)
    (hbase : ∀ p, p < n → chunkName name p ≠ name)
    (hch : ∀ i, i < n → fsGet fs (chunkName name i) = some (c i)) :
    ∃ fs', reassemble name n fs = some fs'
      ∧ fsGet fs' name = some (concatChunks c n)
      ∧ ∀ i, i < n → fsGet fs' (chunkName name i) = none := by
  have h0 : fsGet fs (chunkName name 0) = some (c 0) := hch 0 (by omega)
  obtain ⟨fs2, hrun, hbase2, hgone2, hpres2⟩ :=
    mergeLoop_spec name c (n - 1) 1 fs (c 0) (le_refl 1)
      (by
        intro p q hp hq h
        have hpn : p < n := by rcases hp with hp | hp <;> omega
        have hqn : q < n := by rcases hq with hq | hq <;> omega
        exact hdist p hpn q hqn h)
      h0
      (by intro j h1 h2; exact hch j (by omega))
  have hres : reassemble name n fs
      = some (fsRename fs2 (chunkName name 0) name) := by
    simp [reassemble, h0, hrun]
  have hfull : fsGet fs2 (chunkName name 0) = some (concatChunks c n) := by
    rw [hbase2, concatChunks_eq c n hn]
  have hren : fsRename fs2 (chunkName name 0) name
      = fsSet (fsRemove fs2 (chunkName name 0)) name (concatChunks c n) := by
    simp [fsRename, hfull]
  refine ⟨fsRename fs2 (chunkName name 0) name, hres, ?_, ?_⟩
  · rw [hren, fsGet_fsSet_same]
  · intro i hi
    have hin : chunkName name i ≠ name := hbase i hi
    rw [hren, fsGet_fsSet_ne _ _ _ _ (fun h => hin h.symm)]
    rcases Nat.eq_zero_or_pos i with h | h
    · subst h
      exact fsGet_fsRemove_same fs2 (chunkName name 0)
    · have hi0 : chunkName name 0 ≠ chunkName name i := by
        intro h2
        have := hdist 0 (by omega) i hi h2
        omega
      rw [fsGet_fsRemove_ne _ _ _ hi0]
      exact hgone2 i (by omega) (by omega)

/-- Witness for C7: two chunks f.0 and f.1 with contents [7] and [8, 9]
reassemble into f holding [7, 8, 9], with both chunk files removed. -/
theorem reassemble_correct_witness :
    ∃ fs', reassemble "f" 2
        [(chunkName "f" 0, [7]), (chunkName "f" 1, [8, 9])] = some fs'
      ∧ fsGet fs' "f"
          = some (concatChunks (fun i => if i = 0 then [7] else [8, 9]) 2)
      ∧ ∀ i, i < 2 →
          fsGet fs' (chunkName "f" i) = none :=
  reassemble_correct "f" 2 (fun i => if i = 0 then [7] else [8, 9])
    [(chunkName "f" 0, [7]), (chunkName "f" 1, [8, 9])]
    (by decide) (by decide) (by decide) (by decide)

/-- The error values parallelDownload can return: request construction
failure from url.Parse or http.NewRequest, a failed HEAD round trip, the
ErrNoParallelDownload sentinel for a server without byte-range support, and a
header-extraction failure. -/
inductive DLError where
  | requestError
  | transportError
  | noParallel
  | headerParse
deriving DecidableEq

/-- How a parallelDownload call ends: with a returned error value, with a
process panic raised after the dispatch loop started, or normally with the
resolved filename. -/
inductive DLOutcome where
  | err (e : DLError)
  | panicked
  | done (fileName : String)
deriving DecidableEq

/-- Observable outcomes of the probe phase of parallelDownload: whether
url.Parse succeeds, the URL's path component, whether the HEAD round trip
succeeds, and the three response header values it reads. -/
structure ProbeEnv where
  urlOk : Bool
  urlPath : String
  headOk : Bool
  acceptRanges : String
  contentLength : String
  contentDisposition : String

/-- The chunk files created by the spawned fetch tasks, in dispatch order:
the task of index idx creates chunk file fileName.idx (os.Create inside
dataWriter) holding the bytes of its inclusive range of the resource. -/
def writeChunks (fileName : String) (resource : List ℕ) :
    List (ℕ × ℕ) → ℕ → FS → FS
  | [], _, fs => fs
  | r :: rest, idx, fs =>
      writeChunks fileName resource rest (idx + 1)
        (fsSet fs (chunkName fileName idx)
          ((resource.drop r.1).take (r.2 + 1 - r.1)))

/-- The phase of parallelDownload after all its error returns (fastdownloader
lines 257-309): run the dispatch loop (modelled with fuel contentLength; when
batchSize is 0 the real loop never terminates, and this phase returns no error
either way), let the spawned tasks create one chunk file per range, then
reassemble; reassembly failures panic and success returns the filename.  No
branch of this phase returns an error value. -/
def dispatchAndMerge (fileName : String) (contentLength parallelRequests : ℕ)
    (resource : List ℕ) (fs : FS) : DLOutcome × FS :=
  match reassemble fileName
      (dispatchRun contentLength (batchSize contentLength parallelRequests)
        contentLength 0).length
      (writeChunks fileName resource
        (dispatchRun contentLength (batchSize contentLength parallelRequests)
          contentLength 0) 0 fs) with
  | none =>
      (DLOutcome.panicked,
        writeChunks fileName resource
          (dispatchRun contentLength (batchSize contentLength parallelRequests)
            contentLength 0) 0 fs)
  | some fs2 => (DLOutcome.done fileName, fs2)

/-- parallelDownload (fastdownloader.go lines 223-309) over the directory fs:
in source order, return the url.Parse error if any, the HEAD error if any,
ErrNoParallelDownload unless the Accept-Ranges value is exactly "bytes", and
the header-extraction error if any; only then resolve the filename and enter
the dispatch loop and reassembly, which create and remove files. -/
def parallelDownload (env : ProbeEnv)
    (parseMediaType : String → ParseMediaTypeResult) (resource : List ℕ)
    (parallelRequests : ℕ) (fs : FS) : DLOutcome × FS :=
  if env.urlOk = false then (DLOutcome.err DLError.requestError, fs)
  else if env.headOk = false then (DLOutcome.err DLError.transportError, fs)
  else if env.acceptRanges ≠ "bytes" then (DLOutcome.err DLError.noParallel, fs)
  else
    match extractDownloadDetailsFromHeaders
        ⟨env.contentLength, env.contentDisposition⟩ parseMediaType with
    | Except.error _ => (DLOutcome.err DLError.headerParse, fs)
    | Except.ok (headerName, contentLength) =>
        dispatchAndMerge
          (if headerName = "" then parseURLAndCaptureFilename env.urlPath
           else headerName)
          contentLength parallelRequests resource fs

/-- Once past its error returns, parallelDownload never produces an error
value: the remaining phase either completes or panics. -/
lemma dispatchAndMerge_ne_err (fileName : String)
    (contentLength parallelRequests : ℕ) (resource : List ℕ) (fs : FS)
    (e : DLError) :
    (dispatchAndMerge fileName contentLength parallelRequests resource fs).1
      ≠ DLOutcome.err e := by
  unfold dispatchAndMerge
  split <;> simp

/-- C10: whenever parallelDownload returns an error value (including the
range-unsupported sentinel that triggers the sequential fallback), it has
created no files: every error return happens before the dispatch loop that
creates the first chunk file, so the failed parallel attempt leaves the
directory exactly as it was. -/
theorem parallelDownload_error_no_files (env : ProbeEnv)
    (parseMediaType : String → ParseMediaTypeResult) (resource : List ℕ)
    (parallelRequests : ℕ) (fs : FS) (e : DLError)
    (h : (parallelDownload env parseMediaType resource parallelRequests fs).1
      = DLOutcome.err e) :
    (parallelDownload env parseMediaType resource parallelRequests fs).2
      = fs := by
  revert h
  unfold parallelDownload
  split
  · intro _; rfl
  · split
    · intro _; rfl
    · split
      · intro _; rfl
      · split
        · intro _; rfl
        · intro h
          exact absurd h (dispatchAndMerge_ne_err _ _ _ _ _ e)

/-- Witness for C10: a server that does not advertise byte-range support
makes parallelDownload return the no-parallel sentinel error and leaves the
directory untouched. -/
theorem parallelDownload_error_no_files_witness :
    (parallelDownload ⟨true, "u", true, "none", "10", ""⟩
        (fun _ => ParseMediaTypeResult.fail) [] 2 [("a", [1])]).1
      = DLOutcome.err DLError.noParallel
    ∧ (parallelDownload ⟨true, "u", true, "none", "10", ""⟩
        (fun _ => ParseMediaTypeResult.fail) [] 2 [("a", [1])]).2
      = [("a", [1])] :=
  ⟨rfl, parallelDownload_error_no_files _ _ _ _ _ DLError.noParallel rfl⟩
